import Mathlib

/-!
Formal model of the poker trainer's flop evaluator, decision engine and
spot generator, translated from the repository's `poker-trainer.tsx`.
Machine integers of the source are modelled by `ℕ`/`ℤ`, JavaScript
numbers used for money and percentages by `ℚ`, and the implicit random
source by explicitly passed draw functions and indices.
-/

namespace PokerTrainer

/-- A rank `0..12` stands for `"2".."A"` (the index into the source's
`RANKS` array); `12` is the Ace. -/
abbrev Rank := Fin 13

/-- A suit `0..3` stands for spades, hearts, diamonds, clubs (the index
into the source's `SUITS` array). -/
abbrev Suit := Fin 4

/-- A playing card.  Its identity is the (rank, suit) pair; the source's
string `id` field is determined by that pair and is not modelled. -/
structure PlayingCard where
  rank : Rank
  suit : Suit
deriving DecidableEq

instance : Inhabited PlayingCard := ⟨⟨0, 0⟩⟩

/-- The three practice modes. -/
inductive Mode where
  | HAND
  | OUTS
  | DECISION
deriving DecidableEq

/-- `rankValue`: the numeric value `0..12` of a rank, as an integer so
that the synthetic low-Ace value `-1` can be adjoined later. -/
def rankValue (r : Rank) : ℤ := r.val

/-- `makeDeck`: one card per (suit, rank) pair, suits in the outer loop
and ranks in the inner loop. -/
def makeDeck : List PlayingCard :=
  (List.finRange 4).flatMap fun s => (List.finRange 13).map fun r => ⟨r, s⟩

/-- Swap two positions of a list, leaving the list unchanged when an
index is out of range (the source only ever swaps in-range indices). -/
def listSwap {α : Type} (l : List α) (i j : ℕ) : List α :=
  if hi : i < l.length then
    if hj : j < l.length then
      (l.set i (l.get ⟨j, hj⟩)).set j (l.get ⟨i, hi⟩)
    else l
  else l

/-- The Fisher–Yates loop of `shuffle`: the index `i` counts down to `1`,
swapping position `i` with a drawn position `j ≤ i`. -/
def fisherYatesLoop {α : Type} (rand : ℕ → ℕ) : List α → ℕ → List α
  | a, 0 => a
  | a, i + 1 => fisherYatesLoop rand (listSwap a (i + 1) (rand (i + 1) % (i + 2))) i

/-- `shuffle`: copies the input (modelled by value semantics) and runs the
Fisher–Yates loop from `length - 1` down to `1`.  The source's draw
`Math.floor(Math.random() * (i + 1))`, always in `0..i`, is modelled by an
arbitrary draw function reduced mod `i + 1`. -/
def shuffle {α : Type} (arr : List α) (rand : ℕ → ℕ) : List α :=
  fisherYatesLoop rand arr (arr.length - 1)

/-- `countByRank`, read off as a function: how many cards have rank `r`. -/
def rankCount (cards : List PlayingCard) (r : Rank) : ℕ :=
  cards.countP fun c => decide (c.rank = r)

/-- `countBySuit`, read off as a function: how many cards have suit `s`. -/
def suitCount (cards : List PlayingCard) (s : Suit) : ℕ :=
  cards.countP fun c => decide (c.suit = s)

/-- The record returned by `hasPairTripsQuads`. -/
structure PTQ where
  pairs : ℕ
  trips : ℕ
  quads : ℕ

/-- `hasPairTripsQuads`: the number of ranks occurring exactly 2, 3 and 4
times.  The source filters the multiset of per-rank counts of the ranks
present; ranks that are absent have count 0 and never match. -/
def hasPairTripsQuads (cards : List PlayingCard) : PTQ :=
  ⟨(Finset.univ.filter fun r : Rank => rankCount cards r = 2).card,
   (Finset.univ.filter fun r : Rank => rankCount cards r = 3).card,
   (Finset.univ.filter fun r : Rank => rankCount cards r = 4).card⟩

/-- `isMadeFlush`: some suit occurs at least 5 times. -/
def isMadeFlush (cards : List PlayingCard) : Bool :=
  decide (∃ s : Suit, 5 ≤ suitCount cards s)

/-- `uniqueSortedRankVals`: the distinct rank values, sorted ascending. -/
def uniqueSortedRankVals (cards : List PlayingCard) : List ℤ :=
  ((cards.map fun c => rankValue c.rank).dedup).insertionSort (· ≤ ·)

/-- The wheel-augmented value list shared by `isMadeStraight` and
`straightDrawType`: when the Ace value 12 is present the synthetic
low-Ace value `-1` is appended, and the list is sorted ascending. -/
def wheelVals (cards : List PlayingCard) : List ℤ :=
  let vals := uniqueSortedRankVals cards
  (if (12 : ℤ) ∈ vals then vals ++ [-1] else vals).insertionSort (· ≤ ·)

/-- The run-counting loop of `isMadeStraight`: scans the remaining values
holding the previous value and the current run length, returning `true`
as soon as a run of 5 consecutive values is found. -/
def runLoop : List ℤ → ℤ → ℕ → Bool
  | [], _, _ => false
  | v :: rest, prev, run =>
    if v = prev + 1 then
      if 5 ≤ run + 1 then true else runLoop rest v (run + 1)
    else if v = prev then runLoop rest prev run
    else runLoop rest v 1

/-- The straight scan of `isMadeStraight` over a sorted value list. -/
def straightRun (l : List ℤ) : Bool :=
  match l with
  | [] => false
  | v :: rest => runLoop rest v 1

/-- `isMadeStraight`: 5 consecutive values in the wheel-augmented list. -/
def isMadeStraight (cards : List PlayingCard) : Bool :=
  straightRun (wheelVals cards)

/-- Spec-side description of the wheel-augmented value set: a value is
either a rank value of some card, or the synthetic `-1` when an Ace is
present. -/
def specWheelMem (cards : List PlayingCard) (v : ℤ) : Prop :=
  (∃ c ∈ cards, rankValue c.rank = v) ∨ (v = -1 ∧ ∃ c ∈ cards, rankValue c.rank = 12)

instance (cards : List PlayingCard) (v : ℤ) : Decidable (specWheelMem cards v) := by
  unfold specWheelMem; infer_instance

lemma mem_uniqueSortedRankVals {cards : List PlayingCard} {v : ℤ} :
    v ∈ uniqueSortedRankVals cards ↔ ∃ c ∈ cards, rankValue c.rank = v := by
  unfold uniqueSortedRankVals
  rw [List.mem_insertionSort, List.mem_dedup, List.mem_map]

lemma mem_wheelVals {cards : List PlayingCard} {v : ℤ} :
    v ∈ wheelVals cards ↔ specWheelMem cards v := by
  simp only [wheelVals, specWheelMem, List.mem_insertionSort]
  by_cases h12 : (12 : ℤ) ∈ uniqueSortedRankVals cards
  · have hA : ∃ c ∈ cards, rankValue c.rank = 12 := mem_uniqueSortedRankVals.1 h12
    rw [if_pos h12, List.mem_append, List.mem_singleton, mem_uniqueSortedRankVals]
    constructor
    · rintro (h | h)
      · exact Or.inl h
      · exact Or.inr ⟨h, hA⟩
    · rintro (h | ⟨h, _⟩)
      · exact Or.inl h
      · exact Or.inr h
  · rw [if_neg h12, mem_uniqueSortedRankVals]
    constructor
    · exact Or.inl
    · rintro (h | ⟨rfl, hA⟩)
      · exact h
      · exact absurd (mem_uniqueSortedRankVals.2 hA) h12

lemma specWheelMem_bounds {cards : List PlayingCard} {v : ℤ}
    (h : specWheelMem cards v) : -1 ≤ v ∧ v ≤ 12 := by
  rcases h with ⟨c, _, rfl⟩ | ⟨rfl, _⟩
  · unfold rankValue
    have := c.rank.isLt
    omega
  · omega

lemma nonneg_of_mem_uniqueSortedRankVals {cards : List PlayingCard} {v : ℤ}
    (h : v ∈ uniqueSortedRankVals cards) : 0 ≤ v := by
  rcases mem_uniqueSortedRankVals.1 h with ⟨c, _, rfl⟩
  unfold rankValue
  omega

lemma nodup_wheelVals (cards : List PlayingCard) : (wheelVals cards).Nodup := by
  simp only [wheelVals]
  rw [(List.perm_insertionSort _ _).nodup_iff]
  have hvals : (uniqueSortedRankVals cards).Nodup := by
    unfold uniqueSortedRankVals
    rw [(List.perm_insertionSort _ _).nodup_iff]
    exact (cards.map fun c => rankValue c.rank).nodup_dedup
  by_cases h12 : (12 : ℤ) ∈ uniqueSortedRankVals cards
  · rw [if_pos h12, List.nodup_append]
    refine ⟨hvals, List.nodup_singleton _, ?_⟩
    intro v hv hneg
    rw [List.mem_singleton] at hneg
    subst hneg
    exact absurd (nonneg_of_mem_uniqueSortedRankVals hv) (by omega)
  · rw [if_neg h12]
    exact hvals

lemma sorted_lt_wheelVals (cards : List PlayingCard) :
    (wheelVals cards).Sorted (· < ·) := by
  have hle : (wheelVals cards).Sorted (· ≤ ·) := List.sorted_insertionSort _ _
  exact hle.lt_of_le (nodup_wheelVals cards)

lemma runLoop_sound :
    ∀ (xs : List ℤ) (prev : ℤ) (run : ℕ) (L : List ℤ),
      (∀ j : ℕ, j < run → prev - j ∈ L) → (∀ y ∈ xs, y ∈ L) →
      runLoop xs prev run = true → ∃ x : ℤ, ∀ i : ℕ, i < 5 → x + i ∈ L := by
  intro xs
  induction xs with
  | nil => intro prev run L _ _ h; simp [runLoop] at h
  | cons y ys ih =>
    intro prev run L hrun hsub h
    rw [runLoop] at h
    by_cases h1 : y = prev + 1
    · rw [if_pos h1] at h
      by_cases h5 : 5 ≤ run + 1
      · have m4 : prev + 1 ∈ L := h1 ▸ hsub y (List.mem_cons_self y ys)
        have m0 : prev - 3 ∈ L := by simpa using hrun 3 (by omega)
        have m1 : prev - 2 ∈ L := by simpa using hrun 2 (by omega)
        have m2 : prev - 1 ∈ L := by simpa using hrun 1 (by omega)
        have m3 : prev ∈ L := by simpa using hrun 0 (by omega)
        refine ⟨prev - 3, ?_⟩
        intro i hi
        interval_cases i
        · simpa using m0
        · have : prev - 3 + ((1 : ℕ) : ℤ) = prev - 2 := by push_cast; ring
          rw [this]; exact m1
        · have : prev - 3 + ((2 : ℕ) : ℤ) = prev - 1 := by push_cast; ring
          rw [this]; exact m2
        · have : prev - 3 + ((3 : ℕ) : ℤ) = prev := by push_cast; ring
          rw [this]; exact m3
        · have : prev - 3 + ((4 : ℕ) : ℤ) = prev + 1 := by push_cast; ring
          rw [this]; exact m4
      · rw [if_neg h5] at h
        refine ih y (run + 1) L ?_ (fun z hz => hsub z (List.mem_cons_of_mem _ hz)) h
        intro j hj
        cases j with
        | zero => simpa using hsub y (List.mem_cons_self y ys)
        | succ k =>
          have : y - ((k + 1 : ℕ) : ℤ) = prev - k := by rw [h1]; push_cast; ring
          rw [this]
          exact hrun k (by omega)
    · rw [if_neg h1] at h
      by_cases h2 : y = prev
      · rw [if_pos h2] at h
        exact ih prev run L hrun (fun z hz => hsub z (List.mem_cons_of_mem _ hz)) h
      · rw [if_neg h2] at h
        refine ih y 1 L ?_ (fun z hz => hsub z (List.mem_cons_of_mem _ hz)) h
        intro j hj
        interval_cases j
        simpa using hsub y (List.mem_cons_self y ys)

lemma runLoop_complete :
    ∀ (xs : List ℤ) (prev x : ℤ) (run : ℕ),
      (prev :: xs).Sorted (· < ·) → run ≤ 4 →
      (∀ i : ℕ, i < 5 → x + i ≤ prev ∨ x + i ∈ xs) →
      (x ≤ prev → prev ≤ x + 4 ∧ (prev - x).toNat < run) →
      runLoop xs prev run = true := by
  intro xs
  induction xs with
  | nil =>
    intro prev x run _ hr4 hmem hmatch
    exfalso
    have h0 : x ≤ prev := by
      rcases hmem 0 (by omega) with h | h
      · simpa using h
      · simp at h
    have h4 : x + 4 ≤ prev := by
      rcases hmem 4 (by omega) with h | h
      · simpa using h
      · simp at h
    have := hmatch h0
    omega
  | cons y ys ih =>
    intro prev x run hsorted hr4 hmem hmatch
    rw [List.sorted_cons] at hsorted
    obtain ⟨hprevlt, hsorted'⟩ := hsorted
    have hpy : prev < y := hprevlt y (List.mem_cons_self y ys)
    have hylt : ∀ b ∈ ys, y < b := (List.sorted_cons.1 hsorted').1
    rw [runLoop]
    by_cases h1 : y = prev + 1
    · rw [if_pos h1]
      by_cases h5 : 5 ≤ run + 1
      · rw [if_pos h5]
      · rw [if_neg h5]
        refine ih y x (run + 1) hsorted' (by omega) ?_ ?_
        · intro i hi
          rcases hmem i hi with h | h
          · exact Or.inl (by omega)
          · rcases List.mem_cons.1 h with h | h
            · exact Or.inl (by omega)
            · exact Or.inr h
        · intro hxy
          by_cases hxp : x ≤ prev
          · have := hmatch hxp
            omega
          · omega
    · rw [if_neg h1]
      have h2 : ¬(y = prev) := by omega
      rw [if_neg h2]
      refine ih y x 1 hsorted' (by omega) ?_ ?_
      · intro i hi
        rcases hmem i hi with h | h
        · exact Or.inl (by omega)
        · rcases List.mem_cons.1 h with h | h
          · exact Or.inl (by omega)
          · exact Or.inr h
      · intro hxy
        have hxny : ¬(x < y) := by
          intro hxlt
          by_cases hxp : x ≤ prev
          · obtain ⟨hub, hrn⟩ := hmatch hxp
            have hi1 : (prev - x).toNat + 1 < 5 := by omega
            have he : x + (((prev - x).toNat + 1 : ℕ) : ℤ) = prev + 1 := by push_cast; omega
            rcases hmem ((prev - x).toNat + 1) hi1 with h | h
            · rw [he] at h; omega
            · rw [he] at h
              rcases List.mem_cons.1 h with h | h
              · omega
              · have := hylt _ h
                omega
          · rcases hmem 0 (by omega) with h | h
            · rw [show x + ((0 : ℕ) : ℤ) = x by push_cast; ring] at h
              omega
            · rw [show x + ((0 : ℕ) : ℤ) = x by push_cast; ring] at h
              rcases List.mem_cons.1 h with h | h
              · omega
              · have := hylt _ h
                omega
        have : x = y := by omega
        omega

lemma straightRun_iff {l : List ℤ} (hs : l.Sorted (· < ·)) :
    straightRun l = true ↔ ∃ x : ℤ, ∀ i : ℕ, i < 5 → x + (i : ℤ) ∈ l := by
  cases l with
  | nil =>
    constructor
    · intro h
      simp [straightRun] at h
    · rintro ⟨x, hx⟩
      exact absurd (hx 0 (by omega)) (List.not_mem_nil _)
  | cons a xs =>
    constructor
    · intro h
      refine runLoop_sound xs a 1 (a :: xs) ?_ (fun y hy => List.mem_cons_of_mem _ hy) h
      intro j hj
      interval_cases j
      simp
    · rintro ⟨x, hx⟩
      show runLoop xs a 1 = true
      refine runLoop_complete xs a x 1 hs (by omega) ?_ ?_
      · intro i hi
        rcases List.mem_cons.1 (hx i hi) with h | h
        · exact Or.inl (le_of_eq h)
        · exact Or.inr h
      · intro hxa
        have hx0 : x ∈ a :: xs := by simpa using hx 0 (by omega)
        rcases List.mem_cons.1 hx0 with h | h
        · subst h
          constructor
          · omega
          · omega
        · have := (List.sorted_cons.1 hs).1 x h
          omega

lemma isMadeStraight_iff {cards : List PlayingCard} :
    isMadeStraight cards = true ↔
      ∃ x : ℤ, ∀ i : ℕ, i < 5 → specWheelMem cards (x + i) := by
  unfold isMadeStraight
  rw [straightRun_iff (sorted_lt_wheelVals cards)]
  constructor
  · rintro ⟨x, hx⟩
    exact ⟨x, fun i hi => mem_wheelVals.1 (hx i hi)⟩
  · rintro ⟨x, hx⟩
    exact ⟨x, fun i hi => mem_wheelVals.2 (hx i hi)⟩

/-- C6: for every card set, `isMadeStraight` returns true iff the set of
distinct rank values, augmented with the synthetic low-Ace value `-1`
when an Ace is present, contains 5 consecutive values; in particular a
hand whose rank values include A, 2, 3, 4, 5 is recognised as a straight
(the wheel). -/
theorem isMadeStraight_five_consecutive :
    (∀ cards : List PlayingCard, isMadeStraight cards = true ↔
      ∃ x : ℤ, ∀ i : ℕ, i < 5 → specWheelMem cards (x + i)) ∧
    (∀ cards : List PlayingCard,
      (∃ c ∈ cards, rankValue c.rank = 12) →
      (∃ c ∈ cards, rankValue c.rank = 0) →
      (∃ c ∈ cards, rankValue c.rank = 1) →
      (∃ c ∈ cards, rankValue c.rank = 2) →
      (∃ c ∈ cards, rankValue c.rank = 3) →
      isMadeStraight cards = true) := by
  refine ⟨fun cards => isMadeStraight_iff, ?_⟩
  intro cards hA h2 h3 h4 h5
  refine isMadeStraight_iff.2 ⟨-1, ?_⟩
  intro i hi
  interval_cases i
  · exact Or.inr ⟨by norm_num, hA⟩
  · exact Or.inl (by simpa using h2)
  · exact Or.inl (by simpa using h3)
  · exact Or.inl (by simpa using h4)
  · exact Or.inl (by simpa using h5)

/-- Witness for C6: the concrete wheel hand A♠ 2♥ 3♦ 4♣ 5♠ is a made
straight. -/
theorem isMadeStraight_five_consecutive_witness :
    isMadeStraight [⟨12, 0⟩, ⟨0, 1⟩, ⟨1, 2⟩, ⟨2, 3⟩, ⟨3, 0⟩] = true :=
  isMadeStraight_five_consecutive.2 _
    (by decide) (by decide) (by decide) (by decide) (by decide)

/-- The per-subset value list of `straightDrawType`: the low-Ace
substitution maps `-1` to `0`, then the subset is sorted ascending. -/
def tOf (c : List ℤ) : List ℤ :=
  (c.map fun v => if v = -1 then 0 else v).insertionSort (· ≤ ·)

/-- Whether a 4-subset qualifies as open-ended: span `max - min = 3`. -/
def subOesd (c : List ℤ) : Bool :=
  match tOf c with
  | [a, _, _, d] => decide (d - a = 3)
  | _ => false

/-- Whether a 4-subset qualifies as a gutshot: span `max - min = 4` with
exactly one value of the closed range `[min, max]` missing from the
subset (the source's `needed` set). -/
def subGutshot (c : List ℤ) : Bool :=
  match tOf c with
  | [a, b, c', d] =>
    decide (d - a = 4) &&
      decide ((((List.range ((d - a).toNat + 1)).map fun i : ℕ => a + (i : ℤ)).filter
        fun v => decide (v ∉ [a, b, c', d])).length = 1)
  | _ => false

/-- `comb4`: all 4-element subsets, kept in order, of a list. -/
def comb4 (a : List ℤ) : List (List ℤ) := a.sublistsLen 4

/-- `straightDrawType`: scans every 4-subset of the (deduplicated)
wheel-augmented values of hole + flop and sets the two flags
`(oesd, gutshot)`. -/
def straightDrawType (hole flop : List PlayingCard) : Bool × Bool :=
  let uniq := (wheelVals (hole ++ flop)).dedup
  ((comb4 uniq).any subOesd, (comb4 uniq).any subGutshot)

/-- The record returned by `evalOnFlop`. -/
structure EvalResult where
  bestHandLabel : String
  drawLabel : String
  outs : ℕ
  improvementOuts : ℕ

/-- `calcImprovementOuts`: the fixed improvement-outs table keyed by the
made-hand label. -/
def calcImprovementOuts (bestHandLabel : String) : ℕ :=
  if bestHandLabel = "High Card" then 6
  else if bestHandLabel = "One Pair" then 5
  else if bestHandLabel = "Two Pair" then 4
  else if bestHandLabel = "Three of a Kind" then 7
  else if bestHandLabel = "Full House" then 1
  else 0

/-- The maximum suit count among the cards (`Math.max` over the values
of the suit-count map; on a nonempty hand the zero counts of the absent
suits do not change the maximum, and on the empty hand both the source
and this model fail the `= 4` flush-draw test). -/
def maxSuitCount (cards : List PlayingCard) : ℕ :=
  ((List.finRange 4).map (suitCount cards)).foldr max 0

/-- `evalOnFlop`, translated clause by clause from the source. -/
def evalOnFlop (h1 h2 f1 f2 f3 : PlayingCard) : EvalResult :=
  let cards := [h1, h2, f1, f2, f3]
  let ptq := hasPairTripsQuads cards
  let madeFlush := isMadeFlush cards
  let madeStraight := isMadeStraight cards
  let bestHandLabel :=
    if madeFlush && madeStraight then "Straight Flush"
    else if ptq.quads ≠ 0 then "Four of a Kind"
    else if ptq.trips ≠ 0 ∧ ptq.pairs ≠ 0 then "Full House"
    else if madeFlush then "Flush"
    else if madeStraight then "Straight"
    else if ptq.trips ≠ 0 then "Three of a Kind"
    else if 2 ≤ ptq.pairs then "Two Pair"
    else if ptq.pairs = 1 then "One Pair"
    else "High Card"
  let isFlushDraw := decide (maxSuitCount cards = 4)
  let sd := straightDrawType [h1, h2] [f1, f2, f3]
  let oesd := sd.1
  let gutshot := sd.2
  let outsDraw : ℕ × String :=
    if !madeFlush && !madeStraight then
      if isFlushDraw && oesd then (15, "Combo Draw (Flush + Straight)")
      else if isFlushDraw then (9, "Flush Draw")
      else if oesd then (8, "Open-Ended Straight Draw")
      else if gutshot then (4, "Gutshot Straight Draw")
      else (0, "None")
    else (0, "None")
  ⟨bestHandLabel, outsDraw.2, outsDraw.1, calcImprovementOuts bestHandLabel⟩

/-- `potOddsPct`: the raw pot-odds percentage.  The source divides with
no zero-denominator guard; over `ℚ` the ungoverned `0/0` case yields `0`,
and the generator never evaluates the division with a zero call. -/
def potOddsPct (pot callAmt : ℚ) : ℚ := callAmt / (pot + callAmt) * 100

/-- `approxEquityFromOuts`: the Rule of 4, clamped at 100. -/
def approxEquityFromOuts (outs : ℕ) : ℕ := min 100 (outs * 4)

/-- The `strongMade` label list of `recommendDecision`. -/
def strongMadeLabels : List String :=
  ["Two Pair", "Three of a Kind", "Straight", "Flush", "Full House",
   "Four of a Kind", "Straight Flush"]

/-- `recommendDecision`: strong made hand → Raise; 15+ outs → Raise;
equity (Rule of 4) + 2 at least the required percentage → Call; else
Fold. -/
def recommendDecision (bestHand : String) (outs : ℕ) (reqPct : ℚ) : String :=
  if bestHand ∈ strongMadeLabels then "Raise"
  else if 15 ≤ outs then "Raise"
  else if reqPct ≤ (approxEquityFromOuts outs : ℚ) + 2 then "Call"
  else "Fold"

/-- JavaScript `Math.round`: round half toward positive infinity. -/
def jsRound (x : ℚ) : ℤ := ⌊x + 1 / 2⌋

/-- The solution part of a `Spot`.  The display-only `decisionWhy` and
`explainer` strings are not modelled. -/
structure Solution where
  bestHandLabel : String
  drawLabel : String
  outs : ℕ
  improvementOuts : ℕ
  potOddsPct : ℚ
  decision : String

/-- A generated practice spot. -/
structure Spot where
  hole : PlayingCard × PlayingCard
  flop : PlayingCard × PlayingCard × PlayingCard
  pot : ℚ
  betToCall : ℚ
  solution : Solution

/-- The fixed pot sizes `genSpot` draws from. -/
def potChoices : List ℚ := [40, 50, 60, 80, 100, 120]

/-- The fixed bet sizes `genSpot` draws from. -/
def betChoices : List ℚ := [10, 15, 20, 25, 30]

/-- `genSpot`, with the already-shuffled deck and the two random index
draws passed in explicitly. -/
def genSpot (mode : Mode) (deck : List PlayingCard) (ip : Fin 6) (ib : Fin 5) : Spot :=
  let h1 := deck.getD 0 default
  let h2 := deck.getD 1 default
  let f1 := deck.getD 2 default
  let f2 := deck.getD 3 default
  let f3 := deck.getD 4 default
  let pot0 := potChoices.getD ip.val 0
  let bet0 := betChoices.getD ib.val 0
  let pot := if mode = Mode.HAND ∨ mode = Mode.OUTS then 0 else pot0
  let betToCall := if mode = Mode.HAND ∨ mode = Mode.OUTS then 0 else bet0
  let ev := evalOnFlop h1 h2 f1 f2 f3
  let reqPct := if betToCall ≠ 0 then potOddsPct pot betToCall else 0
  let decision :=
    if mode = Mode.DECISION then recommendDecision ev.bestHandLabel ev.outs reqPct
    else "Call"
  { hole := (h1, h2), flop := (f1, f2, f3), pot := pot, betToCall := betToCall,
    solution :=
      { bestHandLabel := ev.bestHandLabel, drawLabel := ev.drawLabel,
        outs := ev.outs, improvementOuts := ev.improvementOuts,
        potOddsPct := (jsRound (reqPct * 10) : ℚ) / 10,
        decision := decision } }

/-- Spec-side straight predicate: 5 consecutive values exist in the
wheel-augmented value set. -/
def specStraight (cards : List PlayingCard) : Prop :=
  ∃ x : ℤ, ∀ i : ℕ, i < 5 → specWheelMem cards (x + i)

instance (cards : List PlayingCard) : Decidable (specStraight cards) :=
  decidable_of_iff
    (∃ k : Fin 14, ∀ i : ℕ, i < 5 → specWheelMem cards ((k : ℤ) - 1 + i))
    (by
      constructor
      · rintro ⟨k, h⟩
        exact ⟨(k : ℤ) - 1, h⟩
      · rintro ⟨x, h⟩
        have h0 := specWheelMem_bounds (h 0 (by omega))
        have hx : -1 ≤ x ∧ x ≤ 12 := by omega
        refine ⟨⟨(x + 1).toNat, by omega⟩, ?_⟩
        intro i hi
        show specWheelMem cards ((((x + 1).toNat : ℕ) : ℤ) - 1 + (i : ℤ))
        have he : (((x + 1).toNat : ℕ) : ℤ) - 1 + (i : ℤ) = x + i := by omega
        rw [he]
        exact h i hi)

lemma isMadeStraight_eq_spec {cards : List PlayingCard} :
    isMadeStraight cards = true ↔ specStraight cards := by
  unfold specStraight
  exact isMadeStraight_iff

lemma flush_iff_all_same_suit {cards : List PlayingCard} (h5 : cards.length = 5) :
    (∃ s : Suit, 5 ≤ suitCount cards s) ↔ ∃ s : Suit, ∀ c ∈ cards, c.suit = s := by
  constructor
  · rintro ⟨s, hs⟩
    refine ⟨s, ?_⟩
    have hle : suitCount cards s ≤ cards.length := List.countP_le_length _
    have heq : suitCount cards s = cards.length := by
      unfold suitCount at *
      omega
    have hall := List.countP_eq_length.1 heq
    intro c hc
    exact of_decide_eq_true (hall c hc)
  · rintro ⟨s, hs⟩
    refine ⟨s, ?_⟩
    have heq : suitCount cards s = cards.length :=
      List.countP_eq_length.2 (fun c hc => decide_eq_true (hs c hc))
    omega

/-- The nine hand categories. -/
inductive HandCategory where
  | highCard
  | onePair
  | twoPair
  | threeOfAKind
  | straight
  | flush
  | fullHouse
  | fourOfAKind
  | straightFlush
deriving DecidableEq

/-- The display label of each hand category. -/
def HandCategory.label : HandCategory → String
  | .highCard => "High Card"
  | .onePair => "One Pair"
  | .twoPair => "Two Pair"
  | .threeOfAKind => "Three of a Kind"
  | .straight => "Straight"
  | .flush => "Flush"
  | .fullHouse => "Full House"
  | .fourOfAKind => "Four of a Kind"
  | .straightFlush => "Straight Flush"

/-- Spec-side classifier, following the documented precedence: Straight
Flush (all five cards of one suit forming a straight) > Four of a Kind >
Full House (trips and a separate pair) > Flush (a suit count at least 5)
> Straight > Three of a Kind > Two Pair (at least two pair-ranks) > One
Pair > High Card. -/
def specClassify (cards : List PlayingCard) : HandCategory :=
  if (∃ s : Suit, ∀ c ∈ cards, c.suit = s) ∧ specStraight cards then .straightFlush
  else if 1 ≤ (hasPairTripsQuads cards).quads then .fourOfAKind
  else if 1 ≤ (hasPairTripsQuads cards).trips ∧ 1 ≤ (hasPairTripsQuads cards).pairs then
    .fullHouse
  else if ∃ s : Suit, 5 ≤ suitCount cards s then .flush
  else if specStraight cards then .straight
  else if 1 ≤ (hasPairTripsQuads cards).trips then .threeOfAKind
  else if 2 ≤ (hasPairTripsQuads cards).pairs then .twoPair
  else if (hasPairTripsQuads cards).pairs = 1 then .onePair
  else .highCard

lemma label_mem_categories (hc : HandCategory) :
    hc.label ∈
      ["High Card", "One Pair", "Two Pair", "Three of a Kind", "Straight",
       "Flush", "Full House", "Four of a Kind", "Straight Flush"] := by
  cases hc <;> decide

lemma evalOnFlop_bestHandLabel (h1 h2 f1 f2 f3 : PlayingCard) :
    (evalOnFlop h1 h2 f1 f2 f3).bestHandLabel
      = (specClassify [h1, h2, f1, f2, f3]).label := by
  have hlen : ([h1, h2, f1, f2, f3] : List PlayingCard).length = 5 := rfl
  simp only [evalOnFlop, specClassify]
  generalize ([h1, h2, f1, f2, f3] : List PlayingCard) = cards at hlen ⊢
  have hflush5 : isMadeFlush cards = true ↔ (∃ s : Suit, 5 ≤ suitCount cards s) := by
    simp [isMadeFlush]
  have hflushAll : isMadeFlush cards = true ↔ (∃ s : Suit, ∀ c ∈ cards, c.suit = s) :=
    hflush5.trans (flush_iff_all_same_suit hlen)
  by_cases c1 : (∃ s : Suit, ∀ c ∈ cards, c.suit = s) ∧ specStraight cards
  · rw [if_pos (show (isMadeFlush cards && isMadeStraight cards) = true by
      rw [Bool.and_eq_true]
      exact ⟨hflushAll.2 c1.1, isMadeStraight_eq_spec.2 c1.2⟩), if_pos c1]
    rfl
  · rw [if_neg (show ¬((isMadeFlush cards && isMadeStraight cards) = true) by
      intro h
      rw [Bool.and_eq_true] at h
      exact c1 ⟨hflushAll.1 h.1, isMadeStraight_eq_spec.1 h.2⟩), if_neg c1]
    by_cases c2 : 1 ≤ (hasPairTripsQuads cards).quads
    · rw [if_pos (show (hasPairTripsQuads cards).quads ≠ 0 by omega), if_pos c2]
      rfl
    · rw [if_neg (show ¬((hasPairTripsQuads cards).quads ≠ 0) by omega), if_neg c2]
      by_cases c3 : 1 ≤ (hasPairTripsQuads cards).trips ∧ 1 ≤ (hasPairTripsQuads cards).pairs
      · rw [if_pos (show (hasPairTripsQuads cards).trips ≠ 0 ∧
            (hasPairTripsQuads cards).pairs ≠ 0 by omega), if_pos c3]
        rfl
      · rw [if_neg (show ¬((hasPairTripsQuads cards).trips ≠ 0 ∧
            (hasPairTripsQuads cards).pairs ≠ 0) by omega), if_neg c3]
        by_cases c4 : ∃ s : Suit, 5 ≤ suitCount cards s
        · rw [if_pos (hflush5.2 c4), if_pos c4]
          rfl
        · rw [if_neg (fun h => c4 (hflush5.1 h)), if_neg c4]
          by_cases c5 : specStraight cards
          · rw [if_pos (isMadeStraight_eq_spec.2 c5), if_pos c5]
            rfl
          · rw [if_neg (fun h => c5 (isMadeStraight_eq_spec.1 h)), if_neg c5]
            by_cases c6 : 1 ≤ (hasPairTripsQuads cards).trips
            · rw [if_pos (show (hasPairTripsQuads cards).trips ≠ 0 by omega), if_pos c6]
              rfl
            · rw [if_neg (show ¬((hasPairTripsQuads cards).trips ≠ 0) by omega), if_neg c6]
              by_cases c7 : 2 ≤ (hasPairTripsQuads cards).pairs
              · rw [if_pos c7, if_pos c7]
                rfl
              · rw [if_neg c7, if_neg c7]
                by_cases c8 : (hasPairTripsQuads cards).pairs = 1
                · rw [if_pos c8, if_pos c8]
                  rfl
                · rw [if_neg c8, if_neg c8]
                  rfl

/-- C1: on any 2 hole + 3 flop distinct cards, `evalOnFlop` returns
exactly one of the nine hand-category labels, and the label agrees with
the documented classification precedence (straight flush first, full
house requiring trips and a separate pair, flush as a suit count of at
least 5, two pair as at least two pair-ranks). -/
theorem evalOnFlop_classification (h1 h2 f1 f2 f3 : PlayingCard)
    (_hnd : ([h1, h2, f1, f2, f3] : List PlayingCard).Nodup) :
    (evalOnFlop h1 h2 f1 f2 f3).bestHandLabel
        = (specClassify [h1, h2, f1, f2, f3]).label ∧
    (evalOnFlop h1 h2 f1 f2 f3).bestHandLabel ∈
      ["High Card", "One Pair", "Two Pair", "Three of a Kind", "Straight",
       "Flush", "Full House", "Four of a Kind", "Straight Flush"] := by
  refine ⟨evalOnFlop_bestHandLabel h1 h2 f1 f2 f3, ?_⟩
  rw [evalOnFlop_bestHandLabel h1 h2 f1 f2 f3]
  exact label_mem_categories _

/-- Witness for C1 at the concrete hand A♠ K♠ / Q♠ J♠ 2♥. -/
theorem evalOnFlop_classification_witness :
    (evalOnFlop ⟨12, 0⟩ ⟨11, 0⟩ ⟨10, 0⟩ ⟨9, 0⟩ ⟨0, 1⟩).bestHandLabel
        = (specClassify [⟨12, 0⟩, ⟨11, 0⟩, ⟨10, 0⟩, ⟨9, 0⟩, ⟨0, 1⟩]).label ∧
    (evalOnFlop ⟨12, 0⟩ ⟨11, 0⟩ ⟨10, 0⟩ ⟨9, 0⟩ ⟨0, 1⟩).bestHandLabel ∈
      ["High Card", "One Pair", "Two Pair", "Three of a Kind", "Straight",
       "Flush", "Full House", "Four of a Kind", "Straight Flush"] :=
  evalOnFlop_classification ⟨12, 0⟩ ⟨11, 0⟩ ⟨10, 0⟩ ⟨9, 0⟩ ⟨0, 1⟩ (by decide)

lemma le_foldr_max {l : List ℕ} {x : ℕ} (hx : x ∈ l) : x ≤ l.foldr max 0 := by
  induction l with
  | nil => cases hx
  | cons a l ih =>
    rcases List.mem_cons.1 hx with rfl | hx'
    · exact le_max_left _ _
    · exact le_trans (ih hx') (le_max_right _ _)

lemma foldr_max_mem (l : List ℕ) : l.foldr max 0 = 0 ∨ l.foldr max 0 ∈ l := by
  induction l with
  | nil => exact Or.inl rfl
  | cons a l ih =>
    rcases max_choice a (l.foldr max 0) with h | h
    · exact Or.inr (by rw [List.foldr_cons, h]; exact List.mem_cons_self _ _)
    · rcases ih with h0 | hmem
      · rw [List.foldr_cons, h, h0]
        exact Or.inl rfl
      · exact Or.inr (by rw [List.foldr_cons, h]; exact List.mem_cons_of_mem _ hmem)

lemma countP_disjoint_le {α : Type} (p q : α → Bool)
    (h : ∀ a, ¬(p a = true ∧ q a = true)) :
    ∀ l : List α, l.countP p + l.countP q ≤ l.length := by
  intro l
  induction l with
  | nil => simp
  | cons a l ih =>
    rw [List.countP_cons, List.countP_cons, List.length_cons]
    by_cases hp : p a = true
    · by_cases hq : q a = true
      · exact absurd ⟨hp, hq⟩ (h a)
      · simp [hp, hq]
        omega
    · by_cases hq : q a = true
      · simp [hp, hq]
        omega
      · simp [hp, hq]
        omega

lemma suitCount_le_four {cards : List PlayingCard} (h5 : cards.length = 5)
    {s : Suit} (hs : suitCount cards s = 4) :
    ∀ t : Suit, suitCount cards t ≤ 4 := by
  intro t
  by_cases hts : t = s
  · subst hts
    omega
  · have hdisj : ∀ c : PlayingCard,
        ¬((decide (c.suit = s) : Bool) = true ∧ (decide (c.suit = t) : Bool) = true) := by
      rintro c ⟨hcs, hct⟩
      exact hts ((of_decide_eq_true hct).symm.trans (of_decide_eq_true hcs))
    have := countP_disjoint_le _ _ hdisj cards
    unfold suitCount at *
    omega

lemma maxSuitCount_eq_four_iff {cards : List PlayingCard} (h5 : cards.length = 5) :
    maxSuitCount cards = 4 ↔ ∃ s : Suit, suitCount cards s = 4 := by
  constructor
  · intro h
    rcases foldr_max_mem ((List.finRange 4).map (suitCount cards)) with h0 | hmem
    · rw [maxSuitCount] at h
      omega
    · rw [maxSuitCount] at h
      rw [h] at hmem
      rcases List.mem_map.1 hmem with ⟨s, _, hs⟩
      exact ⟨s, hs⟩
  · rintro ⟨s, hs⟩
    have hge : 4 ≤ maxSuitCount cards := by
      rw [← hs]
      exact le_foldr_max (List.mem_map.2 ⟨s, List.mem_finRange s, rfl⟩)
    have hle : maxSuitCount cards ≤ 4 := by
      rcases foldr_max_mem ((List.finRange 4).map (suitCount cards)) with h0 | hmem
      · rw [maxSuitCount, h0]
        omega
      · rcases List.mem_map.1 hmem with ⟨t, _, ht⟩
        rw [maxSuitCount, ← ht]
        exact suitCount_le_four h5 hs t
    omega

/-- C3: when neither a made flush nor a made straight exists, the draw
label and outs of `evalOnFlop` follow the precedence Combo (flush draw
and OESD, 15) > Flush Draw (exactly 4 cards of one suit, 9) > OESD (8) >
Gutshot (4) > None (0). -/
theorem evalOnFlop_draw_precedence (h1 h2 f1 f2 f3 : PlayingCard)
    (hnf : isMadeFlush [h1, h2, f1, f2, f3] = false)
    (hns : isMadeStraight [h1, h2, f1, f2, f3] = false) :
    ((∃ s : Suit, suitCount [h1, h2, f1, f2, f3] s = 4) →
      (straightDrawType [h1, h2] [f1, f2, f3]).1 = true →
      (evalOnFlop h1 h2 f1 f2 f3).drawLabel = "Combo Draw (Flush + Straight)" ∧
      (evalOnFlop h1 h2 f1 f2 f3).outs = 15) ∧
    ((∃ s : Suit, suitCount [h1, h2, f1, f2, f3] s = 4) →
      ¬((straightDrawType [h1, h2] [f1, f2, f3]).1 = true) →
      (evalOnFlop h1 h2 f1 f2 f3).drawLabel = "Flush Draw" ∧
      (evalOnFlop h1 h2 f1 f2 f3).outs = 9) ∧
    (¬(∃ s : Suit, suitCount [h1, h2, f1, f2, f3] s = 4) →
      (straightDrawType [h1, h2] [f1, f2, f3]).1 = true →
      (evalOnFlop h1 h2 f1 f2 f3).drawLabel = "Open-Ended Straight Draw" ∧
      (evalOnFlop h1 h2 f1 f2 f3).outs = 8) ∧
    (¬(∃ s : Suit, suitCount [h1, h2, f1, f2, f3] s = 4) →
      ¬((straightDrawType [h1, h2] [f1, f2, f3]).1 = true) →
      (straightDrawType [h1, h2] [f1, f2, f3]).2 = true →
      (evalOnFlop h1 h2 f1 f2 f3).drawLabel = "Gutshot Straight Draw" ∧
      (evalOnFlop h1 h2 f1 f2 f3).outs = 4) ∧
    (¬(∃ s : Suit, suitCount [h1, h2, f1, f2, f3] s = 4) →
      ¬((straightDrawType [h1, h2] [f1, f2, f3]).1 = true) →
      ¬((straightDrawType [h1, h2] [f1, f2, f3]).2 = true) →
      (evalOnFlop h1 h2 f1 f2 f3).drawLabel = "None" ∧
      (evalOnFlop h1 h2 f1 f2 f3).outs = 0) := by
  have hlen : ([h1, h2, f1, f2, f3] : List PlayingCard).length = 5 := rfl
  refine ⟨?_, ?_, ?_, ?_, ?_⟩
  · intro hfd hoesd
    have hfdb : decide (maxSuitCount [h1, h2, f1, f2, f3] = 4) = true :=
      decide_eq_true ((maxSuitCount_eq_four_iff hlen).2 hfd)
    constructor <;> simp [evalOnFlop, hnf, hns, hfdb, hoesd]
  · intro hfd hnoesd
    have hfdb : decide (maxSuitCount [h1, h2, f1, f2, f3] = 4) = true :=
      decide_eq_true ((maxSuitCount_eq_four_iff hlen).2 hfd)
    have hoesd : (straightDrawType [h1, h2] [f1, f2, f3]).1 = false :=
      Bool.eq_false_iff.2 hnoesd
    constructor <;> simp [evalOnFlop, hnf, hns, hfdb, hoesd]
  · intro hnfd hoesd
    have hfdb : decide (maxSuitCount [h1, h2, f1, f2, f3] = 4) = false :=
      decide_eq_false (fun h => hnfd ((maxSuitCount_eq_four_iff hlen).1 h))
    constructor <;> simp [evalOnFlop, hnf, hns, hfdb, hoesd]
  · intro hnfd hnoesd hgs
    have hfdb : decide (maxSuitCount [h1, h2, f1, f2, f3] = 4) = false :=
      decide_eq_false (fun h => hnfd ((maxSuitCount_eq_four_iff hlen).1 h))
    have hoesd : (straightDrawType [h1, h2] [f1, f2, f3]).1 = false :=
      Bool.eq_false_iff.2 hnoesd
    constructor <;> simp [evalOnFlop, hnf, hns, hfdb, hoesd, hgs]
  · intro hnfd hnoesd hngs
    have hfdb : decide (maxSuitCount [h1, h2, f1, f2, f3] = 4) = false :=
      decide_eq_false (fun h => hnfd ((maxSuitCount_eq_four_iff hlen).1 h))
    have hoesd : (straightDrawType [h1, h2] [f1, f2, f3]).1 = false :=
      Bool.eq_false_iff.2 hnoesd
    have hgs : (straightDrawType [h1, h2] [f1, f2, f3]).2 = false :=
      Bool.eq_false_iff.2 hngs
    constructor <;> simp [evalOnFlop, hnf, hns, hfdb, hoesd, hgs]

/-- Witness for C3 at the concrete hand 2♠ 3♠ / 7♠ 9♠ K♥, a pure flush
draw. -/
theorem evalOnFlop_draw_precedence_witness :
    (evalOnFlop ⟨0, 0⟩ ⟨1, 0⟩ ⟨5, 0⟩ ⟨7, 0⟩ ⟨11, 1⟩).drawLabel = "Flush Draw" ∧
    (evalOnFlop ⟨0, 0⟩ ⟨1, 0⟩ ⟨5, 0⟩ ⟨7, 0⟩ ⟨11, 1⟩).outs = 9 :=
  (evalOnFlop_draw_precedence ⟨0, 0⟩ ⟨1, 0⟩ ⟨5, 0⟩ ⟨7, 0⟩ ⟨11, 1⟩
    (by decide) (by decide)).2.1 (by decide) (by decide)

/-- C7: `evalOnFlop` reports a draw label other than None only when the
classifier finds neither a made flush nor a made straight on the five
cards. -/
theorem drawLabel_requires_no_made_hand (h1 h2 f1 f2 f3 : PlayingCard)
    (h : (evalOnFlop h1 h2 f1 f2 f3).drawLabel ≠ "None") :
    isMadeFlush [h1, h2, f1, f2, f3] = false ∧
    isMadeStraight [h1, h2, f1, f2, f3] = false := by
  constructor
  · cases hf : isMadeFlush [h1, h2, f1, f2, f3] with
    | false => rfl
    | true => exact absurd (by simp [evalOnFlop, hf]) h
  · cases hs : isMadeStraight [h1, h2, f1, f2, f3] with
    | false => rfl
    | true => exact absurd (by simp [evalOnFlop, hs]) h

/-- Witness for C7 at the concrete hand A♠ K♠ / Q♠ J♠ 2♥, which shows a
combo draw. -/
theorem drawLabel_requires_no_made_hand_witness :
    isMadeFlush [⟨12, 0⟩, ⟨11, 0⟩, ⟨10, 0⟩, ⟨9, 0⟩, ⟨0, 1⟩] = false ∧
    isMadeStraight [⟨12, 0⟩, ⟨11, 0⟩, ⟨10, 0⟩, ⟨9, 0⟩, ⟨0, 1⟩] = false :=
  drawLabel_requires_no_made_hand ⟨12, 0⟩ ⟨11, 0⟩ ⟨10, 0⟩ ⟨9, 0⟩ ⟨0, 1⟩ (by decide)

lemma subGutshot_nodup {c : List ℤ} (h : subGutshot c = true) : (tOf c).Nodup := by
  have hsort : (tOf c).Sorted (· ≤ ·) := by
    unfold tOf
    exact List.sorted_insertionSort _ _
  unfold subGutshot at h
  rcases ht : tOf c with _ | ⟨a, _ | ⟨b, _ | ⟨e, _ | ⟨d, _ | ⟨x, xs⟩⟩⟩⟩⟩
  · rw [ht] at h; simp at h
  · rw [ht] at h; simp at h
  · rw [ht] at h; simp at h
  · rw [ht] at h; simp at h
  case cons.cons.cons.cons.cons => rw [ht] at h; simp at h
  case cons.cons.cons.cons.nil =>
    rw [ht] at h hsort
    simp only [Bool.and_eq_true, decide_eq_true_eq] at h
    obtain ⟨hspan, hmiss⟩ := h
    have hd4 : d = a + 4 := by omega
    subst hd4
    rw [show (a + 4 - a).toNat + 1 = 5 by omega] at hmiss
    rw [show (List.range 5) = [0, 1, 2, 3, 4] from rfl] at hmiss
    have hlist : (([0, 1, 2, 3, 4] : List ℕ).map fun i : ℕ => a + (i : ℤ))
        = [a, a + 1, a + 2, a + 3, a + 4] := by
      simp only [List.map_cons, List.map_nil]
      norm_num
    rw [hlist] at hmiss
    rw [List.sorted_cons, List.sorted_cons, List.sorted_cons] at hsort
    have hab : a ≤ b := hsort.1 b (by simp)
    have hbe : b ≤ e := hsort.2.1 e (by simp)
    have hed : e ≤ a + 4 := hsort.2.2.1 (a + 4) (by simp)
    by_cases m1 : (a + 1) ∈ [a, b, e, a + 4] <;>
      by_cases m2 : (a + 2) ∈ [a, b, e, a + 4] <;>
      by_cases m3 : (a + 3) ∈ [a, b, e, a + 4] <;>
      simp only [List.mem_cons, List.not_mem_nil, or_false, not_or] at m1 m2 m3
    · exfalso
      omega
    · simp only [List.nodup_cons, List.mem_cons, List.not_mem_nil, or_false,
        not_false_eq_true, and_true, List.nodup_nil, not_or]
      omega
    · simp only [List.nodup_cons, List.mem_cons, List.not_mem_nil, or_false,
        not_false_eq_true, and_true, List.nodup_nil, not_or]
      omega
    · rcases m1 with h | h | h | h
      · exact absurd h (by omega)
      · subst h
        simp [m2, m3] at hmiss
      · subst h
        simp [m2, m3] at hmiss
      · exact absurd h (by omega)
    · simp only [List.nodup_cons, List.mem_cons, List.not_mem_nil, or_false,
        not_false_eq_true, and_true, List.nodup_nil, not_or]
      omega
    · rcases m2 with h | h | h | h
      · exact absurd h (by omega)
      · subst h
        simp [m1, m3] at hmiss
      · subst h
        simp [m1, m3] at hmiss
      · exact absurd h (by omega)
    · rcases m3 with h | h | h | h
      · exact absurd h (by omega)
      · subst h
        simp [m1, m2] at hmiss
      · subst h
        simp [m1, m2] at hmiss
      · exact absurd h (by omega)
    · simp [m1, m2, m3] at hmiss

lemma straightDrawType_fst_iff (hole flop : List PlayingCard) :
    (straightDrawType hole flop).1 = true ↔
      ∃ c, c.Sublist (wheelVals (hole ++ flop)) ∧ c.length = 4 ∧ subOesd c = true := by
  simp only [straightDrawType, comb4]
  rw [(nodup_wheelVals (hole ++ flop)).dedup]
  rw [List.any_eq_true]
  constructor
  · rintro ⟨x, hmem, hx⟩
    obtain ⟨hsub, hlen⟩ := List.mem_sublistsLen.1 hmem
    exact ⟨x, hsub, hlen, hx⟩
  · rintro ⟨x, hsub, hlen, hx⟩
    exact ⟨x, List.mem_sublistsLen.2 ⟨hsub, hlen⟩, hx⟩

lemma straightDrawType_snd_iff (hole flop : List PlayingCard) :
    (straightDrawType hole flop).2 = true ↔
      ∃ c, c.Sublist (wheelVals (hole ++ flop)) ∧ c.length = 4 ∧ subGutshot c = true := by
  simp only [straightDrawType, comb4]
  rw [(nodup_wheelVals (hole ++ flop)).dedup]
  rw [List.any_eq_true]
  constructor
  · rintro ⟨x, hmem, hx⟩
    obtain ⟨hsub, hlen⟩ := List.mem_sublistsLen.1 hmem
    exact ⟨x, hsub, hlen, hx⟩
  · rintro ⟨x, hsub, hlen, hx⟩
    exact ⟨x, List.mem_sublistsLen.2 ⟨hsub, hlen⟩, hx⟩

/-- C2 counterexample: on hole A♠ 2♥ and flop 4♦ 5♣ K♠ the source sets
the OESD flag, yet no 4-subset of the wheel-augmented values has mapped
span 3 together with 4 distinct mapped values — the only span-3 subset is
{-1, 0, 2, 3}, whose low-Ace substitution collapses -1 and 0 to the same
value 0. -/
theorem straightDrawType_oesd_counterexample :
    (straightDrawType [⟨12, 0⟩, ⟨0, 1⟩] [⟨2, 2⟩, ⟨3, 3⟩, ⟨11, 0⟩]).1 = true ∧
    ¬∃ c ∈ comb4 ((wheelVals ([⟨12, 0⟩, ⟨0, 1⟩] ++ [⟨2, 2⟩, ⟨3, 3⟩, ⟨11, 0⟩])).dedup),
        subOesd c = true ∧ (tOf c).Nodup := by
  decide

/-- C2 corrected: the OESD flag is set exactly when some 4-subset of the
wheel-augmented values has mapped span `max - min = 3`, where the mapped
values need NOT be 4 distinct values (a subset holding both the
synthetic low Ace and the Two collapses to 3 values and still counts);
the gutshot flag is set exactly when some 4-subset has mapped span 4
with exactly one interior value missing, and such a subset automatically
has 4 distinct mapped values. -/
theorem straightDrawType_flag_characterization (hole flop : List PlayingCard) :
    ((straightDrawType hole flop).1 = true ↔
      ∃ c, c.Sublist (wheelVals (hole ++ flop)) ∧ c.length = 4 ∧ subOesd c = true) ∧
    ((straightDrawType hole flop).2 = true ↔
      ∃ c, c.Sublist (wheelVals (hole ++ flop)) ∧ c.length = 4 ∧
        subGutshot c = true ∧ (tOf c).Nodup) := by
  refine ⟨straightDrawType_fst_iff hole flop, ?_⟩
  rw [straightDrawType_snd_iff hole flop]
  constructor
  · rintro ⟨c, hsub, hlen, hg⟩
    exact ⟨c, hsub, hlen, hg, subGutshot_nodup hg⟩
  · rintro ⟨c, hsub, hlen, hg, _⟩
    exact ⟨c, hsub, hlen, hg⟩

/-- C4 counterexample: on A♠ K♠ / Q♠ J♠ 2♥ the draw label is not None
(it is the combo draw) and yet `improvementOuts` is 6, not 0 — the
source computes `calcImprovementOuts(bestHandLabel)` unconditionally. -/
theorem improvementOuts_with_draw_counterexample :
    (evalOnFlop ⟨12, 0⟩ ⟨11, 0⟩ ⟨10, 0⟩ ⟨9, 0⟩ ⟨0, 1⟩).drawLabel ≠ "None" ∧
    (evalOnFlop ⟨12, 0⟩ ⟨11, 0⟩ ⟨10, 0⟩ ⟨9, 0⟩ ⟨0, 1⟩).improvementOuts ≠ 0 ∧
    (evalOnFlop ⟨12, 0⟩ ⟨11, 0⟩ ⟨10, 0⟩ ⟨9, 0⟩ ⟨0, 1⟩).improvementOuts = 6 := by
  decide

/-- C4 corrected: `improvementOuts` always equals the improvement-outs
table value for the made-hand label — High Card 6, One Pair 5, Two Pair
4, Three of a Kind 7, Full House 1, Straight/Flush/Straight Flush 0 —
regardless of whether a draw is present. -/
theorem evalOnFlop_improvementOuts_table (h1 h2 f1 f2 f3 : PlayingCard) :
    ((evalOnFlop h1 h2 f1 f2 f3).bestHandLabel = "High Card" →
      (evalOnFlop h1 h2 f1 f2 f3).improvementOuts = 6) ∧
    ((evalOnFlop h1 h2 f1 f2 f3).bestHandLabel = "One Pair" →
      (evalOnFlop h1 h2 f1 f2 f3).improvementOuts = 5) ∧
    ((evalOnFlop h1 h2 f1 f2 f3).bestHandLabel = "Two Pair" →
      (evalOnFlop h1 h2 f1 f2 f3).improvementOuts = 4) ∧
    ((evalOnFlop h1 h2 f1 f2 f3).bestHandLabel = "Three of a Kind" →
      (evalOnFlop h1 h2 f1 f2 f3).improvementOuts = 7) ∧
    ((evalOnFlop h1 h2 f1 f2 f3).bestHandLabel = "Full House" →
      (evalOnFlop h1 h2 f1 f2 f3).improvementOuts = 1) ∧
    ((evalOnFlop h1 h2 f1 f2 f3).bestHandLabel = "Straight" ∨
      (evalOnFlop h1 h2 f1 f2 f3).bestHandLabel = "Flush" ∨
      (evalOnFlop h1 h2 f1 f2 f3).bestHandLabel = "Straight Flush" →
      (evalOnFlop h1 h2 f1 f2 f3).improvementOuts = 0) := by
  have hio : (evalOnFlop h1 h2 f1 f2 f3).improvementOuts
      = calcImprovementOuts ((evalOnFlop h1 h2 f1 f2 f3).bestHandLabel) := rfl
  refine ⟨?_, ?_, ?_, ?_, ?_, ?_⟩
  · intro h; rw [hio, h]; decide
  · intro h; rw [hio, h]; decide
  · intro h; rw [hio, h]; decide
  · intro h; rw [hio, h]; decide
  · intro h; rw [hio, h]; decide
  · rintro (h | h | h) <;> rw [hio, h] <;> decide

/-- Witness for C4 (amended) at the concrete high-card hand
2♠ 3♥ 7♦ 9♣ K♥. -/
theorem evalOnFlop_improvementOuts_table_witness :
    (evalOnFlop ⟨0, 0⟩ ⟨1, 1⟩ ⟨5, 2⟩ ⟨7, 3⟩ ⟨11, 1⟩).improvementOuts = 6 :=
  (evalOnFlop_improvementOuts_table ⟨0, 0⟩ ⟨1, 1⟩ ⟨5, 2⟩ ⟨7, 3⟩ ⟨11, 1⟩).1 (by decide)

/-- C5: `recommendDecision` applies, in order: Raise on a strong made
hand; Raise on 15 or more outs; Call when the Rule-of-4 equity plus the
2-point margin meets the required percentage; otherwise Fold.  In
particular High Card with 4 outs against a required 50 percent folds. -/
theorem recommendDecision_policy :
    (∀ (b : String) (outs : ℕ) (reqPct : ℚ),
      (b ∈ strongMadeLabels → recommendDecision b outs reqPct = "Raise") ∧
      (b ∉ strongMadeLabels → 15 ≤ outs → recommendDecision b outs reqPct = "Raise") ∧
      (b ∉ strongMadeLabels → outs < 15 →
        reqPct ≤ (approxEquityFromOuts outs : ℚ) + 2 →
        recommendDecision b outs reqPct = "Call") ∧
      (b ∉ strongMadeLabels → outs < 15 →
        (approxEquityFromOuts outs : ℚ) + 2 < reqPct →
        recommendDecision b outs reqPct = "Fold") ∧
      approxEquityFromOuts outs = min 100 (outs * 4)) ∧
    recommendDecision "High Card" 4 50 = "Fold" := by
  constructor
  · intro b outs reqPct
    refine ⟨?_, ?_, ?_, ?_, rfl⟩
    · intro hb
      simp only [recommendDecision, if_pos hb]
    · intro hb ho
      simp only [recommendDecision, if_neg hb, if_pos ho]
    · intro hb ho hc
      simp only [recommendDecision, if_neg hb, if_neg (by omega : ¬(15 ≤ outs)),
        if_pos hc]
    · intro hb ho hc
      simp only [recommendDecision, if_neg hb, if_neg (by omega : ¬(15 ≤ outs)),
        if_neg (not_le.2 hc)]
  · have hlt : ¬((50 : ℚ) ≤ (approxEquityFromOuts 4 : ℚ) + 2) := by
      norm_num [approxEquityFromOuts]
    simp only [recommendDecision,
      if_neg (by decide : ¬("High Card" ∈ strongMadeLabels)),
      if_neg (by omega : ¬(15 ≤ 4)), if_neg hlt]

/-- Witness for C5: a made flush raises regardless of outs and price. -/
theorem recommendDecision_policy_witness :
    recommendDecision "Flush" 0 0 = "Raise" :=
  (recommendDecision_policy.1 "Flush" 0 0).1 (by decide)

/-- C8 counterexample: with pot 40 and call 15 the stored
`solution.potOddsPct` is the rounded 27.3, while the pure pot-odds value
is 300/11 = 27.2727...; the two differ, so the stored field does not
equal the pure function of the Spot's own pot and betToCall. -/
theorem genSpot_potOdds_exact_counterexample :
    0 < (genSpot Mode.DECISION makeDeck 0 1).betToCall ∧
    (genSpot Mode.DECISION makeDeck 0 1).solution.potOddsPct ≠
      (genSpot Mode.DECISION makeDeck 0 1).betToCall /
        ((genSpot Mode.DECISION makeDeck 0 1).pot +
          (genSpot Mode.DECISION makeDeck 0 1).betToCall) * 100 := by
  have hbet : (genSpot Mode.DECISION makeDeck 0 1).betToCall = 15 := rfl
  have hpot : (genSpot Mode.DECISION makeDeck 0 1).pot = 40 := rfl
  have hstored : (genSpot Mode.DECISION makeDeck 0 1).solution.potOddsPct
      = (jsRound ((if ((15 : ℚ) ≠ 0) then potOddsPct 40 15 else 0) * 10) : ℚ) / 10 := rfl
  constructor
  · rw [hbet]
    norm_num
  · rw [hstored, hbet, hpot]
    rw [if_pos (by norm_num : (15 : ℚ) ≠ 0)]
    have h273 : jsRound (potOddsPct 40 15 * 10) = 273 := by
      unfold jsRound potOddsPct
      norm_num
    rw [h273]
    norm_num

/-- C8 corrected: for every mode, deck and random indices, the stored
`solution.potOddsPct` equals the pure pot-odds function of the Spot's
own pot and betToCall fields rounded to one decimal place
(`Math.round(x * 10) / 10`, half up) when betToCall is nonzero, and 0
when betToCall is zero. -/
theorem genSpot_potOdds_consistency (mode : Mode) (deck : List PlayingCard)
    (ip : Fin 6) (ib : Fin 5) :
    ((genSpot mode deck ip ib).betToCall ≠ 0 →
      (genSpot mode deck ip ib).solution.potOddsPct =
        (jsRound (potOddsPct (genSpot mode deck ip ib).pot
          (genSpot mode deck ip ib).betToCall * 10) : ℚ) / 10) ∧
    ((genSpot mode deck ip ib).betToCall = 0 →
      (genSpot mode deck ip ib).solution.potOddsPct = 0) := by
  constructor
  · intro h
    simp only [genSpot] at h ⊢
    rw [if_pos h]
  · intro h
    simp only [genSpot] at h ⊢
    rw [if_neg (fun hne => hne h)]
    norm_num [jsRound]

/-- Witness for C8 (amended) at mode DECISION with pot 40 and call 15. -/
theorem genSpot_potOdds_consistency_witness :
    (genSpot Mode.DECISION makeDeck 0 1).solution.potOddsPct =
      (jsRound (potOddsPct (genSpot Mode.DECISION makeDeck 0 1).pot
        (genSpot Mode.DECISION makeDeck 0 1).betToCall * 10) : ℚ) / 10 :=
  (genSpot_potOdds_consistency Mode.DECISION makeDeck 0 1).1 (by decide)

/-- C10: the pot-odds division of `potOddsPct` is reached only under
`genSpot`'s nonzero-bet guard, whose chosen pot and bet are then both
positive, so the denominator `pot + betToCall` is positive at every
evaluated call site; with a zero bet the guard short-circuits and the
stored percentage is exactly 0. -/
theorem genSpot_potOdds_guard (mode : Mode) (deck : List PlayingCard)
    (ip : Fin 6) (ib : Fin 5) :
    ((genSpot mode deck ip ib).betToCall ≠ 0 →
      0 < (genSpot mode deck ip ib).pot + (genSpot mode deck ip ib).betToCall) ∧
    ((genSpot mode deck ip ib).betToCall = 0 →
      (genSpot mode deck ip ib).solution.potOddsPct = 0) := by
  have hpotpos : ∀ i : Fin 6, 0 < potChoices.getD i.val 0 := by decide
  have hbetpos : ∀ i : Fin 5, 0 < betChoices.getD i.val 0 := by decide
  constructor
  · intro h
    simp only [genSpot] at h ⊢
    by_cases hm : mode = Mode.HAND ∨ mode = Mode.OUTS
    · rw [if_pos hm] at h
      exact absurd rfl h
    · rw [if_neg hm] at h
      rw [if_neg hm, if_neg hm]
      exact add_pos (hpotpos ip) (hbetpos ib)
  · intro h
    simp only [genSpot] at h ⊢
    rw [if_neg (fun hne => hne h)]
    norm_num [jsRound]

/-- Witness for C10 at mode DECISION with pot 40 and call 10. -/
theorem genSpot_potOdds_guard_witness :
    0 < (genSpot Mode.DECISION makeDeck 0 0).pot +
      (genSpot Mode.DECISION makeDeck 0 0).betToCall :=
  (genSpot_potOdds_guard Mode.DECISION makeDeck 0 0).1 (by decide)

lemma listSwap_perm {α : Type} [DecidableEq α] (l : List α) (i j : ℕ) :
    (listSwap l i j).Perm l := by
  unfold listSwap
  split_ifs with hi hj
  · rw [List.perm_iff_count]
    intro a
    simp only [List.get_eq_getElem]
    have hj' : j < (l.set i l[j]).length := by simpa using hj
    rw [List.count_set _ _ _ _ hj', List.count_set _ _ _ _ hi, List.getElem_set,
      ite_self]
    have hbi : (if (l[i] == a) = true then 1 else 0) ≤ l.count a := by
      rw [List.count_eq_countP]
      simpa using List.boole_getElem_le_countP (fun x => x == a) l i hi
    have hbj : (if (l[j] == a) = true then 1 else 0) ≤ l.count a := by
      rw [List.count_eq_countP]
      simpa using List.boole_getElem_le_countP (fun x => x == a) l j hj
    by_cases hti : (l[i] == a) = true <;> by_cases htj : (l[j] == a) = true <;>
      simp only [hti, htj, if_true, if_false] at hbi hbj ⊢ <;> omega
  · exact List.Perm.refl _
  · exact List.Perm.refl _

lemma fisherYatesLoop_perm {α : Type} (rand : ℕ → ℕ) :
    ∀ (n : ℕ) (l : List α), (fisherYatesLoop rand l n).Perm l := by
  intro n
  induction n with
  | zero =>
    intro l
    exact List.Perm.refl _
  | succ i ih =>
    intro l
    have step : fisherYatesLoop rand l (i + 1)
        = fisherYatesLoop rand (listSwap l (i + 1) (rand (i + 1) % (i + 2))) i := rfl
    rw [step]
    classical
    exact (ih _).trans (listSwap_perm _ _ _)

/-- C9: `shuffle` returns a permutation of its input for every draw
sequence — the same multiset of elements, none lost and none duplicated
(the source copies the array before swapping, modelled by value
semantics, so the input itself is untouched); in particular shuffling
the 52-card deck yields exactly the same 52 distinct cards. -/
theorem shuffle_preserves_multiset :
    (∀ (α : Type) (arr : List α) (rand : ℕ → ℕ), (shuffle arr rand).Perm arr) ∧
    makeDeck.length = 52 ∧ makeDeck.Nodup ∧
    (∀ rand : ℕ → ℕ, (shuffle makeDeck rand).Perm makeDeck) := by
  have hs : ∀ (α : Type) (arr : List α) (rand : ℕ → ℕ), (shuffle arr rand).Perm arr := by
    intro α arr rand
    exact fisherYatesLoop_perm rand _ arr
  exact ⟨hs, by decide, by decide, fun rand => hs _ makeDeck rand⟩
